import Mathlib

/-!
Verification development for the map-and-visibility core of the BearRogue
roguelike (`src/bearrogue.go`).  The `gamemap`, `fov`, `camera` and `entity`
packages are not part of the provided sources (only their callers in
`bearrogue.go` are), so their operations are modelled from the
specification; every such definition carries a doc comment starting with
`Modelled from the spec:`.  Functions present in `src/bearrogue.go`
(`handleInput`, `renderMap`'s visibility reset, `renderEntities`) are
translated directly from the Go source.
-/

/-- Modelled from the spec: one cell of the world grid (spec section 3,
`Tile`); the `gamemap` package defining it is not in the provided sources. -/
structure Tile where
  blocksMovement : Bool
  blocksSight : Bool
  visible : Bool
  explored : Bool
deriving DecidableEq

/-- Modelled from the spec: the tile grid with its dimensions (spec
section 3, `Tile Grid`); the Go `gamemap.Map` struct is not in the provided
sources.  The grid is a total function on integer coordinates; only the
rectangle `[0, width) x [0, height)` is the grid proper. -/
structure Map where
  width : Int
  height : Int
  tiles : Int → Int → Tile

/-- Coordinate lies inside the grid rectangle `[0, width) x [0, height)`. -/
def inBoundsP (m : Map) (x y : Int) : Prop :=
  0 ≤ x ∧ x < m.width ∧ 0 ≤ y ∧ y < m.height

instance (m : Map) (x y : Int) : Decidable (inBoundsP m x y) := by
  unfold inBoundsP; infer_instance

/-- Modelled from the spec: `gamemap.Map.IsBlocked` (spec section 4.1:
returns true if the coordinate is out of bounds OR the tile blocks
movement; bounds checking is mandatory).  The method body is not in the
provided sources. -/
def Map.IsBlocked (m : Map) (x y : Int) : Bool :=
  if inBoundsP m x y then (m.tiles x y).blocksMovement else true

/-- Modelled from the spec: one step of the deterministic Bresenham-style
ray walk (spec section 4.3 step 2 and section 9: a deterministic
discretized line walk from observer to target; the `fov` package's exact
walk is not in the provided sources).  The step moves one cell toward the
target: along x when `2*|dx| ≥ |dy|`, along y when `|dx| ≤ 2*|dy|`. -/
def rayStep (x0 y0 x1 y1 : Int) : Int × Int :=
  let dx := (x1 - x0).natAbs
  let dy := (y1 - y0).natAbs
  let sx : Int := if x0 < x1 then 1 else if x1 < x0 then -1 else 0
  let sy : Int := if y0 < y1 then 1 else if y1 < y0 then -1 else 0
  (if dy ≤ 2 * dx then x0 + sx else x0,
   if dx ≤ 2 * dy then y0 + sy else y0)

/-- Fuel-indexed ray walk emitting the tiles from `(x0, y0)` toward
`(x1, y1)` inclusive; stops at the target or when fuel runs out. -/
def rayWalkAux : Nat → Int → Int → Int → Int → List (Int × Int)
  | 0, x0, y0, _, _ => [(x0, y0)]
  | fuel + 1, x0, y0, x1, y1 =>
    if x0 = x1 ∧ y0 = y1 then [(x0, y0)]
    else
      (x0, y0) ::
        rayWalkAux fuel (rayStep x0 y0 x1 y1).1 (rayStep x0 y0 x1 y1).2 x1 y1

/-- Modelled from the spec: the discretized ray from observer to target,
walked tile by tile (spec section 4.3 step 2). -/
def rayWalk (x0 y0 x1 y1 : Int) : List (Int × Int) :=
  rayWalkAux ((x1 - x0).natAbs + (y1 - y0).natAbs) x0 y0 x1 y1

/-- The tiles strictly between the two endpoints of a walk: drop the first
and the last element. -/
def strictInterior (l : List (Int × Int)) : List (Int × Int) :=
  (l.drop 1).dropLast

/-- Modelled from the spec: line of sight is clear when no tile strictly
between the observer and the target has `blocksSight = true` (spec
section 4.3 step 2; occlusion is evaluated against tiles before the
endpoint only). -/
def losClear (m : Map) (ox oy x y : Int) : Bool :=
  (strictInterior (rayWalk ox oy x y)).all fun p => !(m.tiles p.1 p.2).blocksSight

/-- Chebyshev distance between two grid coordinates (spec section 8 uses
the Chebyshev metric for the torch radius). -/
def chebyshev (ox oy x y : Int) : Nat :=
  max (x - ox).natAbs (y - oy).natAbs

/-- The visibility reset loop at the top of `renderMap`
(src/bearrogue.go lines 150-155): every in-bounds tile's `visible` flag is
set to false before the ray cast. -/
def resetVisible (m : Map) : Map :=
  { m with tiles := fun x y =>
      if inBoundsP m x y then { m.tiles x y with visible := false }
      else m.tiles x y }

/-- Modelled from the spec: the visibility condition of one ray-cast pass
(spec section 4.3 steps 2 and 4): a tile is in the computed visible set
iff it is the observer's own tile, or it is within the torch radius and
its line of sight is clear. -/
def rayVisible (m : Map) (radius : Nat) (ox oy x y : Int) : Bool :=
  (x == ox && y == oy) ||
    (decide (chebyshev ox oy x y ≤ radius) && losClear m ox oy x y)

/-- Modelled from the spec: `fov.FieldOfVision.RayCast` (spec section 4.3
steps 2-4; the `fov` package is not in the provided sources): every tile in
the computed visible set gets both `visible` and `explored` set true, all
other tiles are left untouched. -/
def RayCast (radius : Nat) (ox oy : Int) (m : Map) : Map :=
  { m with tiles := fun x y =>
      let t := m.tiles x y
      if rayVisible m radius ox oy x y then
        { t with visible := true, explored := true }
      else t }

/-- One full visibility pass as performed by `renderMap`
(src/bearrogue.go lines 148-158): reset every tile's `visible` flag, then
ray cast from the player's position.  This is the spec's
`computeVisibility(observerX, observerY, radius, grid)` contract
(spec section 4.3). -/
def computeVisibility (radius : Nat) (ox oy : Int) (m : Map) : Map :=
  RayCast radius ox oy (resetVisible m)

/-- Overwrite the `blocksSight` flag of the single tile at `(x, y)`. -/
def setBlocksSight (m : Map) (x y : Int) (b : Bool) : Map :=
  { m with tiles := fun a c =>
      if a = x ∧ c = y then { m.tiles a c with blocksSight := b }
      else m.tiles a c }

/-- A solid-rock wall tile: blocks movement and sight, unseen (spec
section 4.1: the grid is initialized with every tile blocking). -/
def wallTile : Tile :=
  { blocksMovement := true, blocksSight := true, visible := false, explored := false }

/-- An open floor tile. -/
def floorTile : Tile :=
  { blocksMovement := false, blocksSight := false, visible := false, explored := false }

/-- Modelled from the spec: the seeding step of cavern generation (spec
section 4.2 step 1; `gamemap.GenerateCavern` is not in the provided
sources): border tiles are always walls, each interior tile is floor or
wall according to an explicit random source `rng` (spec section 9 asks for
an explicit random source instead of hidden RNG state). -/
def seedMap (w h : Int) (rng : Int → Int → Bool) : Map :=
  { width := w, height := h,
    tiles := fun x y =>
      if x = 0 ∨ y = 0 ∨ x = w - 1 ∨ y = h - 1 then wallTile
      else if rng x y then floorTile else wallTile }

/-- The eight neighbors of a grid coordinate. -/
def neighbors8 (p : Int × Int) : List (Int × Int) :=
  [(p.1 - 1, p.2 - 1), (p.1, p.2 - 1), (p.1 + 1, p.2 - 1),
   (p.1 - 1, p.2), (p.1 + 1, p.2),
   (p.1 - 1, p.2 + 1), (p.1, p.2 + 1), (p.1 + 1, p.2 + 1)]

/-- Number of movement-blocking tiles among the eight neighbors. -/
def wallNeighbors (m : Map) (x y : Int) : Nat :=
  (neighbors8 (x, y)).countP fun p => (m.tiles p.1 p.2).blocksMovement

/-- Modelled from the spec: one cellular-automaton smoothing iteration
(spec section 4.2 step 2): every interior tile becomes wall iff it has at
least 5 wall neighbors in its 3x3 neighborhood, otherwise floor; the rule
reads only the previous iteration's grid (a new grid each iteration). -/
def smoothStep (m : Map) : Map :=
  { m with tiles := fun x y =>
      if 0 < x ∧ x < m.width - 1 ∧ 0 < y ∧ y < m.height - 1 then
        if 5 ≤ wallNeighbors m x y then wallTile else floorTile
      else m.tiles x y }

/-- The smoothed grid after seeding and a fixed number of iterations. -/
def smoothed (w h : Int) (rng : Int → Int → Bool) (steps : Nat) : Map :=
  smoothStep^[steps] (seedMap w h rng)

/-- The four orthogonal neighbors of a grid coordinate (flood-fill
adjacency). -/
def neighbors4 (p : Int × Int) : List (Int × Int) :=
  [(p.1 + 1, p.2), (p.1 - 1, p.2), (p.1, p.2 + 1), (p.1, p.2 - 1)]

/-- An open (walkable) cell: in bounds and not movement-blocking. -/
def isOpen (m : Map) (p : Int × Int) : Bool :=
  decide (inBoundsP m p.1 p.2) && !(m.tiles p.1 p.2).blocksMovement

/-- `isOpen` as a proposition; flood-fill reachability talks about maps
through this predicate. -/
def openIn (m : Map) (p : Int × Int) : Prop :=
  isOpen m p = true

/-- Depth-first flood fill: pop a cell from the stack, record it when it is
open and new, push its four neighbors; the fuel bounds the number of
steps. -/
def floodAux (m : Map) : Nat → List (Int × Int) → List (Int × Int) → List (Int × Int)
  | 0, _, visited => visited
  | _ + 1, [], visited => visited
  | fuel + 1, p :: stack, visited =>
    if p ∈ visited then floodAux m fuel stack visited
    else if isOpen m p then floodAux m fuel (neighbors4 p ++ stack) (p :: visited)
    else floodAux m fuel stack visited

/-- Modelled from the spec: the flood fill of cavern generation (spec
section 4.2 step 3): collect the connected open region around the seed
cell. -/
def floodFill (m : Map) (seed : Int × Int) : List (Int × Int) :=
  floodAux m (m.width.toNat * m.height.toNat * 5 + 1) [seed] []

/-- All grid coordinates in scan order (x outer, y inner). -/
def allCoords (m : Map) : List (Int × Int) :=
  (List.range m.width.toNat).flatMap fun x =>
    (List.range m.height.toNat).map fun y => ((x : Int), (y : Int))

/-- The first open tile of the grid in scan order, if any. -/
def findOpenTile (m : Map) : Option (Int × Int) :=
  (allCoords m).find? fun p => isOpen m p

/-- Modelled from the spec: the pruning step of cavern generation (spec
section 4.2 step 3): every in-bounds open tile not in the retained region
is converted back to wall. -/
def pruneTo (m : Map) (region : List (Int × Int)) : Map :=
  { m with tiles := fun x y =>
      if inBoundsP m x y ∧ (x, y) ∉ region then wallTile
      else m.tiles x y }

/-- Modelled from the spec: `gamemap.GenerateCavern` (spec section 4.2; the
method is not in the provided sources): seed, smooth, flood-fill from the
first open tile, prune every open tile outside that region, and return the
finished map together with the spawn coordinate (the flood-fill seed);
`none` models the degenerate all-wall outcome that the caller must retry
(spec section 4.2 edge case). -/
def GenerateCavern (w h : Int) (rng : Int → Int → Bool) (steps : Nat) :
    Option (Map × Int × Int) :=
  match findOpenTile (smoothed w h rng steps) with
  | none => none
  | some s =>
    some (pruneTo (smoothed w h rng steps)
        (floodFill (smoothed w h rng steps) s), s.1, s.2)

/-- Reachability by flood fill: the reflexive-transitive closure of
4-neighbor adjacency through cells satisfying `good`. -/
inductive ReachIn (good : Int × Int → Prop) : Int × Int → Int × Int → Prop
  | refl (p : Int × Int) : good p → ReachIn good p p
  | step (p q r : Int × Int) : ReachIn good p q → r ∈ neighbors4 q → good r →
      ReachIn good p r

/-- Modelled from the spec: the game camera (spec section 3, `Camera
Viewport`); the `camera.GameCamera` struct is not in the provided
sources. -/
structure GameCamera where
  X : Int
  Y : Int
  Width : Int
  Height : Int
deriving DecidableEq

/-- Modelled from the spec: `camera.GameCamera.MoveCamera` (spec
section 4.4 `recenter`; the method is not in the provided sources): center
the viewport origin on the target, then clamp it so the viewport rectangle
stays within `[0, mapWidth) x [0, mapHeight)`. -/
def MoveCamera (c : GameCamera) (targetX targetY mapWidth mapHeight : Int) :
    GameCamera :=
  { c with
    X := max 0 (min (targetX - c.Width / 2) (mapWidth - c.Width)),
    Y := max 0 (min (targetY - c.Height / 2) (mapHeight - c.Height)) }

/-- Modelled from the spec: `camera.GameCamera.ToCameraCoordinates` (spec
section 4.4 `toViewportCoordinates`; the method is not in the provided
sources): subtract the viewport origin. -/
def ToCameraCoordinates (c : GameCamera) (x y : Int) : Int × Int :=
  (x - c.X, y - c.Y)

/-- The game entity struct of the `entity` package (fields as used by
src/bearrogue.go line 51). -/
structure GameEntity where
  X : Int
  Y : Int
  Layer : Int
  Char : String
  Color : String
deriving DecidableEq

/-- Modelled from the spec: `entity.GameEntity.Move` (the `entity` package
is not in the provided sources; per spec section 6 the movement
collaborator moves an entity into the queried cell, i.e. applies the delta
to its position). -/
def GameEntity.Move (e : GameEntity) (dx dy : Int) : GameEntity :=
  { e with X := e.X + dx, Y := e.Y + dy }

/-- The five input cases distinguished by `handleInput`'s switch
(src/bearrogue.go lines 112-121): the four arrow keys and any other key
(which leaves `dx, dy` at their zero values). -/
inductive Key
  | TK_RIGHT
  | TK_LEFT
  | TK_UP
  | TK_DOWN
  | TK_OTHER
deriving DecidableEq

/-- The movement delta chosen by `handleInput`'s switch statement
(src/bearrogue.go lines 112-121). -/
def keyDelta : Key → Int × Int
  | .TK_RIGHT => (1, 0)
  | .TK_LEFT => (-1, 0)
  | .TK_UP => (0, -1)
  | .TK_DOWN => (0, 1)
  | .TK_OTHER => (0, 0)

/-- `handleInput` (src/bearrogue.go lines 105-127): move the player by the
key's delta iff the destination tile is not blocked. -/
def handleInput (gameMap : Map) (key : Key) (player : GameEntity) : GameEntity :=
  let d := keyDelta key
  if gameMap.IsBlocked (player.X + d.1) (player.Y + d.2) then player
  else player.Move d.1 d.2

/-- `renderEntities` (src/bearrogue.go lines 129-142) as the list of draw
calls it issues, in order: every entity other than the player is drawn (at
its camera coordinates) only when the tile at its position is visible; the
player is always drawn last, unconditionally. -/
def renderEntities (gameMap : Map) (gameCamera : GameCamera)
    (entities : List GameEntity) (player : GameEntity) :
    List (GameEntity × Int × Int) :=
  (entities.filterMap fun e =>
    if e ≠ player ∧ (gameMap.tiles e.X e.Y).visible then
      some (e, ToCameraCoordinates gameCamera e.X e.Y)
    else none) ++
  [(player, ToCameraCoordinates gameCamera player.X player.Y)]

/-- A sequence of visibility passes (one per observer move), each given as
`(observerX, observerY, radius)`, applied left to right. -/
def runVisibility (m : Map) (calls : List (Int × Int × Nat)) : Map :=
  calls.foldl (fun acc c => computeVisibility c.2.2 c.1 c.2.1 acc) m

/-- Taxicab distance, the fuel measure of the ray walk. -/
def dist1 (x0 y0 x1 y1 : Int) : Nat :=
  (x1 - x0).natAbs + (y1 - y0).natAbs

/-- Example 3x3 map, all floor, every tile currently flagged visible. -/
def mAllVisible : Map :=
  { width := 3, height := 3, tiles := fun _ _ => { floorTile with visible := true } }

/-- Example 3x3 map, all floor, tile (1,1) already explored. -/
def mExploredOne : Map :=
  { width := 3, height := 3,
    tiles := fun x y => if x = 1 ∧ y = 1 then { floorTile with explored := true } else floorTile }

/-- Example 10x10 map whose entire row y = 5 is sight-blocking wall. -/
def mWallRow : Map :=
  { width := 10, height := 10, tiles := fun _ y => if y = 5 then wallTile else floorTile }

/-- Example 3x3 map with a single wall at (2,1). -/
def mOneWall : Map :=
  { width := 3, height := 3,
    tiles := fun x y => if x = 2 ∧ y = 1 then wallTile else floorTile }

/-- Example player entity (src/bearrogue.go line 51). -/
def playerEnt : GameEntity :=
  { X := 1, Y := 1, Layer := 1, Char := "@", Color := "white" }

/-- Example NPC entity (src/bearrogue.go line 52, repositioned to (0,0)). -/
def npcEnt : GameEntity :=
  { X := 0, Y := 0, Layer := 0, Char := "N", Color := "red" }

/-- Example camera with the view-area dimensions of src/bearrogue.go. -/
def viewCam : GameCamera := { X := 1, Y := 1, Width := 100, Height := 30 }

/-- Example small camera. -/
def smallCam : GameCamera := { X := 0, Y := 0, Width := 10, Height := 10 }

/-- Example random source marking every interior seed tile as floor. -/
def rngAllFloor : Int → Int → Bool := fun _ _ => true

/-- The concrete map produced by the example generation on a 5x5 grid with
every interior seed tile floor and no smoothing iteration. -/
def genWitnessMap : Map :=
  pruneTo (smoothed 5 5 rngAllFloor 0) (floodFill (smoothed 5 5 rngAllFloor 0) (1, 1))

theorem all_congr_of_eq {α : Type} (l : List α) (f g : α → Bool)
    (h : ∀ a ∈ l, f a = g a) : l.all f = l.all g := by
  induction l with
  | nil => rfl
  | cons a t ih =>
    simp only [List.all_cons]
    rw [h a (by simp), ih fun b hb => h b (by simp [hb])]

theorem resetVisible_blocksSight (m : Map) (x y : Int) :
    ((resetVisible m).tiles x y).blocksSight = (m.tiles x y).blocksSight := by
  unfold resetVisible
  by_cases h : inBoundsP m x y <;> simp [h]

theorem resetVisible_explored (m : Map) (x y : Int) :
    ((resetVisible m).tiles x y).explored = (m.tiles x y).explored := by
  unfold resetVisible
  by_cases h : inBoundsP m x y <;> simp [h]

theorem resetVisible_visible (m : Map) (x y : Int) (h : inBoundsP m x y) :
    ((resetVisible m).tiles x y).visible = false := by
  unfold resetVisible
  simp [h]

theorem losClear_congr (m m' : Map) (ox oy x y : Int)
    (h : ∀ a b : Int, (m'.tiles a b).blocksSight = (m.tiles a b).blocksSight) :
    losClear m' ox oy x y = losClear m ox oy x y := by
  unfold losClear
  exact all_congr_of_eq _ _ _ fun p _ => by rw [h]

theorem losClear_reset (m : Map) (ox oy x y : Int) :
    losClear (resetVisible m) ox oy x y = losClear m ox oy x y :=
  losClear_congr m (resetVisible m) ox oy x y fun a b => resetVisible_blocksSight m a b

theorem rayVisible_reset (m : Map) (r : Nat) (ox oy x y : Int) :
    rayVisible (resetVisible m) r ox oy x y = rayVisible m r ox oy x y := by
  unfold rayVisible
  rw [losClear_reset]

theorem computeVisibility_visible_eq (m : Map) (r : Nat) (ox oy x y : Int)
    (h : inBoundsP m x y) :
    ((computeVisibility r ox oy m).tiles x y).visible = rayVisible m r ox oy x y := by
  unfold computeVisibility RayCast
  simp only [rayVisible_reset]
  by_cases hv : rayVisible m r ox oy x y = true
  · simp [hv]
  · simp only [Bool.not_eq_true] at hv
    simp [hv, resetVisible_visible m x y h]

theorem computeVisibility_explored_eq (m : Map) (r : Nat) (ox oy x y : Int) :
    ((computeVisibility r ox oy m).tiles x y).explored =
      (rayVisible m r ox oy x y || (m.tiles x y).explored) := by
  unfold computeVisibility RayCast
  simp only [rayVisible_reset]
  by_cases hv : rayVisible m r ox oy x y = true
  · simp [hv]
  · simp only [Bool.not_eq_true] at hv
    simp [hv, resetVisible_explored m x y]

theorem explored_mono_fold (calls : List (Int × Int × Nat)) :
    ∀ (m : Map) (x y : Int), (m.tiles x y).explored = true →
      ((runVisibility m calls).tiles x y).explored = true := by
  induction calls with
  | nil => intro m x y h; exact h
  | cons c t ih =>
    intro m x y h
    unfold runVisibility at *
    simp only [List.foldl_cons]
    exact ih _ x y (by rw [computeVisibility_explored_eq]; simp [h])

/-- C3: once a grid tile's `explored` flag is true it stays true across any
sequence of visibility passes; moreover any tile made visible by a pass is
explored after that pass and after every later pass (spec sections 3
and 8, visibility monotonicity of `explored`). -/
theorem explored_monotonic (m : Map) (calls : List (Int × Int × Nat))
    (x y : Int) (h : inBoundsP m x y) :
    ((m.tiles x y).explored = true →
       ((runVisibility m calls).tiles x y).explored = true)
    ∧ (∀ (r : Nat) (ox oy : Int),
        ((computeVisibility r ox oy m).tiles x y).visible = true →
        ((computeVisibility r ox oy m).tiles x y).explored = true)
    ∧ (∀ (r : Nat) (ox oy : Int) (post : List (Int × Int × Nat)),
        ((computeVisibility r ox oy m).tiles x y).visible = true →
        ((runVisibility (computeVisibility r ox oy m) post).tiles x y).explored = true) := by
  refine ⟨fun he => explored_mono_fold calls m x y he, ?_, ?_⟩
  · intro r ox oy hv
    rw [computeVisibility_visible_eq m r ox oy x y h] at hv
    rw [computeVisibility_explored_eq]
    simp [hv]
  · intro r ox oy post hv
    rw [computeVisibility_visible_eq m r ox oy x y h] at hv
    exact explored_mono_fold post _ x y
      (by rw [computeVisibility_explored_eq]; simp [hv])

theorem explored_monotonic_witness :
    ((runVisibility mExploredOne [(1, 1, 2)]).tiles 1 1).explored = true :=
  (explored_monotonic mExploredOne [(1, 1, 2)] 1 1 (by decide)).1 (by decide)

/-- C4: a visibility pass recomputes `visible` from scratch: after the pass
an in-bounds tile's `visible` flag equals exactly the freshly computed
visibility condition, so any tile outside the computed visible set ends
with `visible = false` even if it was true before the pass
(src/bearrogue.go lines 148-158 and spec section 4.3 step 1). -/
theorem visible_reset_each_pass (m : Map) (r : Nat) (ox oy x y : Int)
    (h : inBoundsP m x y) :
    ((computeVisibility r ox oy m).tiles x y).visible = rayVisible m r ox oy x y :=
  computeVisibility_visible_eq m r ox oy x y h

theorem visible_reset_each_pass_witness :
    ((computeVisibility 0 0 0 mAllVisible).tiles 2 2).visible =
      rayVisible mAllVisible 0 0 0 2 2 :=
  visible_reset_each_pass mAllVisible 0 0 0 2 2 (by decide)

/-- C5: the observer's own in-bounds tile is always visible after a
visibility pass, for any radius (spec section 4.3 step 4). -/
theorem observer_self_visible (m : Map) (r : Nat) (ox oy : Int)
    (h : inBoundsP m ox oy) :
    ((computeVisibility r ox oy m).tiles ox oy).visible = true := by
  rw [computeVisibility_visible_eq m r ox oy ox oy h]
  unfold rayVisible
  simp

theorem observer_self_visible_witness :
    ((computeVisibility 0 2 2 mAllVisible).tiles 2 2).visible = true :=
  observer_self_visible mAllVisible 0 2 2 (by decide)

/-- C7: `IsBlocked` returns true for every out-of-bounds coordinate and,
in bounds, returns exactly the tile's `blocksMovement` flag; its result
depends only on tiles inside the grid rectangle, so the query never reads
the tile array out of range (spec sections 4.1 and 7). -/
theorem isBlocked_bounds_safe (m : Map) (x y : Int) :
    (m.IsBlocked x y = true ↔
      (¬ inBoundsP m x y ∨ (m.tiles x y).blocksMovement = true))
    ∧ (∀ m' : Map, m'.width = m.width → m'.height = m.height →
        (∀ a b : Int, inBoundsP m a b → m'.tiles a b = m.tiles a b) →
        m'.IsBlocked x y = m.IsBlocked x y) := by
  constructor
  · unfold Map.IsBlocked
    by_cases h : inBoundsP m x y <;> simp [h]
  · intro m' hw hh ht
    have hb : inBoundsP m' x y ↔ inBoundsP m x y := by
      unfold inBoundsP; rw [hw, hh]
    unfold Map.IsBlocked
    by_cases h : inBoundsP m x y
    · rw [if_pos h, if_pos (hb.mpr h), ht x y h]
    · rw [if_neg h, if_neg (fun hc => h (hb.mp hc))]

theorem isBlocked_bounds_safe_witness :
    mAllVisible.IsBlocked (-1) 0 = true :=
  (isBlocked_bounds_safe mAllVisible (-1) 0).1.mpr (Or.inl (by decide))

/-- C9: `handleInput` moves the player by exactly the key's delta when the
destination tile is not blocked, and leaves the player's position
unchanged when `IsBlocked` returns true for the destination
(src/bearrogue.go lines 105-127). -/
theorem handleInput_moves_iff_unblocked (m : Map) (key : Key) (player : GameEntity) :
    (m.IsBlocked (player.X + (keyDelta key).1) (player.Y + (keyDelta key).2) = true →
       handleInput m key player = player)
    ∧ (m.IsBlocked (player.X + (keyDelta key).1) (player.Y + (keyDelta key).2) = false →
       handleInput m key player =
         { player with
             X := player.X + (keyDelta key).1,
             Y := player.Y + (keyDelta key).2 }) := by
  constructor
  · intro h
    unfold handleInput
    simp [h]
  · intro h
    unfold handleInput GameEntity.Move
    simp [h]

theorem handleInput_moves_iff_unblocked_witness :
    handleInput mOneWall Key.TK_RIGHT playerEnt = playerEnt :=
  (handleInput_moves_iff_unblocked mOneWall Key.TK_RIGHT playerEnt).1 (by decide)

/-- C10: in the draw-call list of `renderEntities`, every drawn entity is
either the player or stands on a tile whose `visible` flag is true; the
player is drawn unconditionally, and every non-player entity of the list
standing on a visible tile is drawn at its camera coordinates
(src/bearrogue.go lines 129-142). -/
theorem renderEntities_visibility_gate (m : Map) (cam : GameCamera)
    (es : List GameEntity) (player e : GameEntity) (cx cy : Int) :
    ((e, cx, cy) ∈ renderEntities m cam es player →
       e = player ∨ (m.tiles e.X e.Y).visible = true)
    ∧ (player, ToCameraCoordinates cam player.X player.Y) ∈
        renderEntities m cam es player
    ∧ (e ∈ es → e ≠ player → (m.tiles e.X e.Y).visible = true →
        (e, ToCameraCoordinates cam e.X e.Y) ∈ renderEntities m cam es player) := by
  refine ⟨?_, ?_, ?_⟩
  · intro h
    unfold renderEntities at h
    rcases List.mem_append.mp h with h1 | h2
    · rcases List.mem_filterMap.mp h1 with ⟨a, _, ha⟩
      by_cases hc : a ≠ player ∧ (m.tiles a.X a.Y).visible = true
      · rw [if_pos hc] at ha
        have : a = e := congrArg (·.1) (Option.some.inj ha)
        right
        rw [← this]
        exact hc.2
      · rw [if_neg hc] at ha
        exact absurd ha (by simp)
    · left
      have := List.mem_singleton.mp h2
      exact congrArg (·.1) this
  · unfold renderEntities
    exact List.mem_append.mpr (Or.inr (List.mem_singleton.mpr rfl))
  · intro he hne hv
    unfold renderEntities
    refine List.mem_append.mpr (Or.inl (List.mem_filterMap.mpr ⟨e, he, ?_⟩))
    rw [if_pos ⟨hne, hv⟩]

theorem renderEntities_visibility_gate_witness :
    (npcEnt, ToCameraCoordinates smallCam npcEnt.X npcEnt.Y) ∈
      renderEntities mAllVisible smallCam [npcEnt, playerEnt] playerEnt :=
  (renderEntities_visibility_gate mAllVisible smallCam [npcEnt, playerEnt]
      playerEnt npcEnt 0 0).2.2 (by simp) (by decide) (by decide)

/-- C8: after recentering, the viewport rectangle always lies within the
map bounds, and for an observer at the exact center of a map larger than
the viewport the observer lands on the viewport's center cell under
`ToCameraCoordinates` (spec section 4.4 and section 8, viewport
clamping). -/
theorem camera_clamp_and_center (c : GameCamera) (tx ty mapW mapH : Int)
    (hw : 0 < c.Width) (hh : 0 < c.Height)
    (hwm : c.Width ≤ mapW) (hhm : c.Height ≤ mapH) :
    (0 ≤ (MoveCamera c tx ty mapW mapH).X ∧
     (MoveCamera c tx ty mapW mapH).X + c.Width ≤ mapW ∧
     0 ≤ (MoveCamera c tx ty mapW mapH).Y ∧
     (MoveCamera c tx ty mapW mapH).Y + c.Height ≤ mapH)
    ∧ (c.Width < mapW → c.Height < mapH →
        ToCameraCoordinates (MoveCamera c (mapW / 2) (mapH / 2) mapW mapH)
            (mapW / 2) (mapH / 2) =
          (c.Width / 2, c.Height / 2)) := by
  constructor
  · unfold MoveCamera
    refine ⟨by simp, ?_, by simp, ?_⟩ <;> simp only [] <;> omega
  · intro hw' hh'
    unfold MoveCamera ToCameraCoordinates
    simp only [Prod.mk.injEq]
    constructor <;> omega

theorem camera_clamp_and_center_witness :
    ToCameraCoordinates (MoveCamera viewCam (150 / 2) (150 / 2) 150 150)
        (150 / 2) (150 / 2) =
      ((100 : Int) / 2, (30 : Int) / 2) :=
  (camera_clamp_and_center viewCam 0 0 150 150 (by decide) (by decide)
      (by decide) (by decide)).2 (by decide) (by decide)

theorem rayWalkAux_shape (fuel : Nat) (x0 y0 x1 y1 : Int) :
    ∃ t, rayWalkAux fuel x0 y0 x1 y1 = (x0, y0) :: t := by
  cases fuel with
  | zero => exact ⟨[], rfl⟩
  | succ n =>
    unfold rayWalkAux
    by_cases h : x0 = x1 ∧ y0 = y1
    · exact ⟨[], by rw [if_pos h]⟩
    · exact ⟨_, by rw [if_neg h]⟩

theorem rayWalkAux_ne_nil (fuel : Nat) (x0 y0 x1 y1 : Int) :
    rayWalkAux fuel x0 y0 x1 y1 ≠ [] := by
  obtain ⟨t, ht⟩ := rayWalkAux_shape fuel x0 y0 x1 y1
  simp [ht]

theorem rayWalkAux_head_mem (fuel : Nat) (x0 y0 x1 y1 : Int) :
    (x0, y0) ∈ rayWalkAux fuel x0 y0 x1 y1 := by
  obtain ⟨t, ht⟩ := rayWalkAux_shape fuel x0 y0 x1 y1
  simp [ht]

theorem rayStep_progress (x0 y0 x1 y1 : Int) (hne : ¬(x0 = x1 ∧ y0 = y1)) :
    dist1 (rayStep x0 y0 x1 y1).1 (rayStep x0 y0 x1 y1).2 x1 y1 <
      dist1 x0 y0 x1 y1 := by
  unfold rayStep dist1
  simp only []
  split_ifs <;> omega

theorem rayStep_y_toward (x0 y0 x1 y1 : Int) (h : y0 ≤ y1) :
    y0 ≤ (rayStep x0 y0 x1 y1).2 ∧ (rayStep x0 y0 x1 y1).2 ≤ y0 + 1 ∧
      (rayStep x0 y0 x1 y1).2 ≤ y1 := by
  unfold rayStep
  simp only []
  split_ifs <;> omega

theorem rayWalkAux_getLast (fuel : Nat) :
    ∀ x0 y0 x1 y1 : Int, dist1 x0 y0 x1 y1 ≤ fuel →
      (rayWalkAux fuel x0 y0 x1 y1).getLast? = some (x1, y1) := by
  induction fuel with
  | zero =>
    intro x0 y0 x1 y1 hd
    unfold dist1 at hd
    have hx : x0 = x1 := by omega
    have hy : y0 = y1 := by omega
    rw [hx, hy]
    rfl
  | succ n ih =>
    intro x0 y0 x1 y1 hd
    unfold rayWalkAux
    by_cases h : x0 = x1 ∧ y0 = y1
    · rw [if_pos h, h.1, h.2]
      rfl
    · rw [if_neg h]
      have hprog := rayStep_progress x0 y0 x1 y1 h
      obtain ⟨t, ht⟩ :=
        rayWalkAux_shape n (rayStep x0 y0 x1 y1).1 (rayStep x0 y0 x1 y1).2 x1 y1
      rw [ht, List.getLast?_cons_cons, ← ht]
      exact ih _ _ x1 y1 (by omega)

theorem rayWalkAux_dropLast_ne (fuel : Nat) :
    ∀ x0 y0 x1 y1 : Int, ∀ p ∈ (rayWalkAux fuel x0 y0 x1 y1).dropLast,
      p ≠ (x1, y1) := by
  induction fuel with
  | zero => intro x0 y0 x1 y1 p hp; simp [rayWalkAux] at hp
  | succ n ih =>
    intro x0 y0 x1 y1 p hp
    unfold rayWalkAux at hp
    by_cases h : x0 = x1 ∧ y0 = y1
    · rw [if_pos h] at hp
      simp at hp
    · rw [if_neg h] at hp
      obtain ⟨t, ht⟩ :=
        rayWalkAux_shape n (rayStep x0 y0 x1 y1).1 (rayStep x0 y0 x1 y1).2 x1 y1
      rw [ht, List.dropLast_cons₂, List.mem_cons, ← ht] at hp
      rcases hp with hp | hp
      · rw [hp]
        intro hc
        exact h ⟨congrArg Prod.fst hc, congrArg Prod.snd hc⟩
      · exact ih _ _ x1 y1 p hp

theorem rayWalkAux_crosses (w : Int) (fuel : Nat) :
    ∀ x0 y0 x1 y1 : Int, dist1 x0 y0 x1 y1 ≤ fuel → y0 ≤ w → w < y1 →
      ∃ p ∈ rayWalkAux fuel x0 y0 x1 y1, p.2 = w := by
  induction fuel with
  | zero =>
    intro x0 y0 x1 y1 hd hw1 hw2
    unfold dist1 at hd
    omega
  | succ n ih =>
    intro x0 y0 x1 y1 hd hw1 hw2
    by_cases hyw : y0 = w
    · exact ⟨(x0, y0), rayWalkAux_head_mem _ x0 y0 x1 y1, hyw⟩
    · have h : ¬(x0 = x1 ∧ y0 = y1) := fun hc => by omega
      have hprog := rayStep_progress x0 y0 x1 y1 h
      have hy := rayStep_y_toward x0 y0 x1 y1 (by omega)
      obtain ⟨p, hp, hpw⟩ :=
        ih (rayStep x0 y0 x1 y1).1 (rayStep x0 y0 x1 y1).2 x1 y1
          (by omega) (by omega) hw2
      refine ⟨p, ?_, hpw⟩
      unfold rayWalkAux
      rw [if_neg h]
      exact List.mem_cons_of_mem _ hp

theorem mem_dropLast_or_eq_getLast (p a : Int × Int) :
    ∀ l : List (Int × Int), p ∈ l → l.getLast? = some a →
      p ∈ l.dropLast ∨ p = a := by
  intro l
  induction l with
  | nil => intro hp; simp at hp
  | cons x t ih =>
    intro hp hl
    cases t with
    | nil =>
      simp at hp hl
      right
      rw [hp, hl]
    | cons y t' =>
      rw [List.getLast?_cons_cons] at hl
      rw [List.dropLast_cons₂]
      rcases List.mem_cons.mp hp with hp | hp
      · exact Or.inl (by rw [hp]; exact List.mem_cons_self _ _)
      · rcases ih hp hl with h | h
        · exact Or.inl (List.mem_cons_of_mem _ h)
        · exact Or.inr h

theorem strictInterior_sub_dropLast (p : Int × Int) (l : List (Int × Int))
    (hp : p ∈ strictInterior l) : p ∈ l.dropLast := by
  cases l with
  | nil => simp [strictInterior] at hp
  | cons a t =>
    unfold strictInterior at hp
    simp only [List.drop_one, List.tail_cons] at hp
    cases t with
    | nil => simp at hp
    | cons b t' =>
      rw [List.dropLast_cons₂]
      exact List.mem_cons_of_mem _ hp

theorem rayWalk_self (x y : Int) : rayWalk x y x y = [(x, y)] := by
  unfold rayWalk
  rw [sub_self, sub_self]
  rfl

theorem losClear_self (m : Map) (x y : Int) : losClear m x y x y = true := by
  unfold losClear
  rw [rayWalk_self]
  rfl

theorem strictInterior_ne_target (m : Map) (ox oy tx ty : Int) (p : Int × Int)
    (hp : p ∈ strictInterior (rayWalk ox oy tx ty)) : p ≠ (tx, ty) :=
  rayWalkAux_dropLast_ne (dist1 ox oy tx ty) ox oy tx ty p
    (strictInterior_sub_dropLast p _ hp)

theorem losClear_setBlocksSight_target (m : Map) (ox oy tx ty : Int) (b : Bool) :
    losClear (setBlocksSight m tx ty b) ox oy tx ty = losClear m ox oy tx ty := by
  unfold losClear
  refine all_congr_of_eq _ _ _ fun p hp => ?_
  have hne := strictInterior_ne_target m ox oy tx ty p hp
  unfold setBlocksSight
  have hc : ¬(p.1 = tx ∧ p.2 = ty) := fun hcc =>
    hne (Prod.ext hcc.1 hcc.2)
  simp only [if_neg hc]

theorem losClear_false_of_wall_row (m : Map) (ox oy tx ty w : Int)
    (h1 : oy < w) (h2 : w < ty)
    (hwall : ∀ t : Int, (m.tiles t w).blocksSight = true) :
    losClear m ox oy tx ty = false := by
  rw [← Bool.not_eq_true]
  intro hall
  unfold losClear at hall
  obtain ⟨p, hp, hpw⟩ :=
    rayWalkAux_crosses w (dist1 ox oy tx ty) ox oy tx ty (le_refl _)
      (by omega) h2
  obtain ⟨rest, hrest⟩ := rayWalkAux_shape (dist1 ox oy tx ty) ox oy tx ty
  have hlast : (rayWalkAux (dist1 ox oy tx ty) ox oy tx ty).getLast? =
      some (tx, ty) :=
    rayWalkAux_getLast (dist1 ox oy tx ty) ox oy tx ty (le_refl _)
  have hpne : p ≠ (ox, oy) := fun hc => by
    rw [hc] at hpw
    simp at hpw
    omega
  have hpr : p ∈ rest := by
    rw [hrest] at hp
    rcases List.mem_cons.mp hp with hc | hc
    · exact absurd hc hpne
    · exact hc
  have hrne : rest ≠ [] := List.ne_nil_of_mem hpr
  obtain ⟨r0, rt, hr0⟩ := List.exists_cons_of_ne_nil hrne
  have hlast' : rest.getLast? = some (tx, ty) := by
    rw [hrest, hr0, List.getLast?_cons_cons] at hlast
    rw [hr0]
    exact hlast
  rcases mem_dropLast_or_eq_getLast p (tx, ty) rest hpr hlast' with hd | hd
  · have hpi : p ∈ strictInterior (rayWalk ox oy tx ty) := by
      unfold strictInterior rayWalk
      show p ∈ (List.drop 1 (rayWalkAux (dist1 ox oy tx ty) ox oy tx ty)).dropLast
      rw [hrest]
      simpa using hd
    have := List.all_eq_true.mp hall p hpi
    have hbs : (m.tiles p.1 p.2).blocksSight = true := by
      rw [hpw]
      exact hwall p.1
    simp [hbs] at this
  · rw [hd] at hpw
    simp at hpw
    omega

/-- C2: after a visibility pass, an in-bounds tile within the torch radius
is visible iff no tile strictly between the observer and it blocks sight;
the target's own `blocksSight` flag never affects its visibility (walls
adjacent to open floor render); and a target separated from the observer
by a full straight row of sight-blocking tiles is not visible
(spec section 4.3 step 2 and section 8, occlusion). -/
theorem raycast_occlusion (m : Map) (r : Nat) (ox oy tx ty : Int) :
    (inBoundsP m tx ty → chebyshev ox oy tx ty ≤ r →
      (((computeVisibility r ox oy m).tiles tx ty).visible = true ↔
        losClear m ox oy tx ty = true))
    ∧ (∀ b : Bool, inBoundsP m tx ty →
        ((computeVisibility r ox oy (setBlocksSight m tx ty b)).tiles tx ty).visible =
          ((computeVisibility r ox oy m).tiles tx ty).visible)
    ∧ (∀ w : Int, inBoundsP m tx ty → oy < w → w < ty →
        (∀ t : Int, (m.tiles t w).blocksSight = true) →
        ((computeVisibility r ox oy m).tiles tx ty).visible = false) := by
  refine ⟨?_, ?_, ?_⟩
  · intro hb hr
    rw [computeVisibility_visible_eq m r ox oy tx ty hb]
    unfold rayVisible
    simp only [Bool.or_eq_true, Bool.and_eq_true, beq_iff_eq, decide_eq_true_eq]
    constructor
    · rintro (⟨hx, hy⟩ | ⟨_, hl⟩)
      · rw [hx, hy]
        exact losClear_self m ox oy
      · exact hl
    · intro hl
      exact Or.inr ⟨hr, hl⟩
  · intro b hb
    have hb' : inBoundsP (setBlocksSight m tx ty b) tx ty := hb
    rw [computeVisibility_visible_eq _ r ox oy tx ty hb',
      computeVisibility_visible_eq m r ox oy tx ty hb]
    unfold rayVisible
    rw [losClear_setBlocksSight_target]
  · intro w hb h1 h2 hwall
    rw [computeVisibility_visible_eq m r ox oy tx ty hb]
    unfold rayVisible
    have hty : (ty == oy) = false := by
      simp only [beq_eq_false_iff_ne]
      omega
    rw [losClear_false_of_wall_row m ox oy tx ty w h1 h2 hwall, hty]
    simp

theorem raycast_occlusion_witness :
    ((computeVisibility 10 5 3 mWallRow).tiles 5 7).visible = false :=
  (raycast_occlusion mWallRow 10 5 3 5 7).2.2 5 (by decide) (by decide)
    (by decide) (fun t => by simp [mWallRow, wallTile])

theorem floodAux_zero (m : Map) (stack visited : List (Int × Int)) :
    floodAux m 0 stack visited = visited := rfl

theorem floodAux_nil (m : Map) (n : Nat) (visited : List (Int × Int)) :
    floodAux m (n + 1) [] visited = visited := rfl

theorem floodAux_cons_mem (m : Map) (n : Nat) (p : Int × Int)
    (st visited : List (Int × Int)) (h : p ∈ visited) :
    floodAux m (n + 1) (p :: st) visited = floodAux m n st visited := by
  show (if p ∈ visited then floodAux m n st visited
    else if isOpen m p then floodAux m n (neighbors4 p ++ st) (p :: visited)
    else floodAux m n st visited) = floodAux m n st visited
  rw [if_pos h]

theorem floodAux_cons_open (m : Map) (n : Nat) (p : Int × Int)
    (st visited : List (Int × Int)) (h1 : p ∉ visited) (h2 : isOpen m p = true) :
    floodAux m (n + 1) (p :: st) visited =
      floodAux m n (neighbors4 p ++ st) (p :: visited) := by
  show (if p ∈ visited then floodAux m n st visited
    else if isOpen m p then floodAux m n (neighbors4 p ++ st) (p :: visited)
    else floodAux m n st visited) =
    floodAux m n (neighbors4 p ++ st) (p :: visited)
  rw [if_neg h1, if_pos h2]

theorem floodAux_cons_closed (m : Map) (n : Nat) (p : Int × Int)
    (st visited : List (Int × Int)) (h1 : p ∉ visited) (h2 : ¬ isOpen m p = true) :
    floodAux m (n + 1) (p :: st) visited = floodAux m n st visited := by
  show (if p ∈ visited then floodAux m n st visited
    else if isOpen m p then floodAux m n (neighbors4 p ++ st) (p :: visited)
    else floodAux m n st visited) = floodAux m n st visited
  rw [if_neg h1, if_neg h2]

theorem floodAux_subset (m : Map) :
    ∀ (fuel : Nat) (stack visited : List (Int × Int)),
      visited ⊆ floodAux m fuel stack visited := by
  intro fuel
  induction fuel with
  | zero => intro stack visited; rw [floodAux_zero]; exact fun q hq => hq
  | succ n ih =>
    intro stack visited
    cases stack with
    | nil => rw [floodAux_nil]; exact fun q hq => hq
    | cons p st =>
      by_cases h1 : p ∈ visited
      · rw [floodAux_cons_mem m n p st visited h1]
        exact ih st visited
      · by_cases h2 : isOpen m p = true
        · rw [floodAux_cons_open m n p st visited h1 h2]
          exact fun q hq => ih _ _ (List.mem_cons_of_mem p hq)
        · rw [floodAux_cons_closed m n p st visited h1 h2]
          exact ih st visited

theorem floodAux_sound (m : Map) (seed : Int × Int) :
    ∀ (fuel : Nat) (stack visited : List (Int × Int)),
      (∀ q ∈ visited, isOpen m q = true ∧
          ReachIn (fun z => isOpen m z = true ∧ z ∈ floodAux m fuel stack visited)
            seed q) →
      (∀ q ∈ stack, q = seed ∨ ∃ v ∈ visited, q ∈ neighbors4 v) →
      ∀ p ∈ floodAux m fuel stack visited,
        isOpen m p = true ∧
          ReachIn (fun z => isOpen m z = true ∧ z ∈ floodAux m fuel stack visited)
            seed p := by
  intro fuel
  induction fuel with
  | zero =>
    intro stack visited hvis _
    rw [floodAux_zero] at *
    exact hvis
  | succ n ih =>
    intro stack visited hvis hstack
    cases stack with
    | nil =>
      rw [floodAux_nil] at *
      exact hvis
    | cons p st =>
      by_cases h1 : p ∈ visited
      · rw [floodAux_cons_mem m n p st visited h1] at *
        exact ih st visited hvis fun q hq => hstack q (List.mem_cons_of_mem p hq)
      · by_cases h2 : isOpen m p = true
        · rw [floodAux_cons_open m n p st visited h1 h2] at *
          apply ih (neighbors4 p ++ st) (p :: visited)
          · intro q hq
            rcases List.mem_cons.mp hq with rfl | hq'
            · refine ⟨h2, ?_⟩
              rcases hstack q (List.mem_cons_self _ _) with rfl | ⟨v, hv, hn⟩
              · exact ReachIn.refl q
                  ⟨h2, floodAux_subset m n _ _ (List.mem_cons_self _ _)⟩
              · exact ReachIn.step seed v q (hvis v hv).2 hn
                  ⟨h2, floodAux_subset m n _ _ (List.mem_cons_self _ _)⟩
            · exact hvis q hq'
          · intro q hq
            rcases List.mem_append.mp hq with hn | hs
            · exact Or.inr ⟨p, List.mem_cons_self _ _, hn⟩
            · rcases hstack q (List.mem_cons_of_mem p hs) with h | ⟨v, hv, hn⟩
              · exact Or.inl h
              · exact Or.inr ⟨v, List.mem_cons_of_mem p hv, hn⟩
        · rw [floodAux_cons_closed m n p st visited h1 h2] at *
          exact ih st visited hvis fun q hq => hstack q (List.mem_cons_of_mem p hq)

theorem floodFill_sound (m : Map) (seed : Int × Int) :
    ∀ p ∈ floodFill m seed, isOpen m p = true ∧
      ReachIn (fun z => isOpen m z = true ∧ z ∈ floodFill m seed) seed p := by
  unfold floodFill
  apply floodAux_sound
  · intro q hq
    simp at hq
  · intro q hq
    left
    simpa using hq

theorem seed_mem_floodFill (m : Map) (seed : Int × Int)
    (h : isOpen m seed = true) : seed ∈ floodFill m seed := by
  unfold floodFill
  rw [floodAux_cons_open m _ seed [] [] (by simp) h]
  exact floodAux_subset m _ _ _ (List.mem_cons_self _ _)

theorem ReachIn_mono {good good' : Int × Int → Prop} {a b : Int × Int}
    (h : ∀ z, good z → good' z) (hr : ReachIn good a b) : ReachIn good' a b := by
  induction hr with
  | refl hp => exact ReachIn.refl _ (h _ hp)
  | step q r hr hn hg ihr => exact ReachIn.step _ q r ihr hn (h r hg)

theorem isOpen_iff (m : Map) (p : Int × Int) :
    isOpen m p = true ↔
      inBoundsP m p.1 p.2 ∧ (m.tiles p.1 p.2).blocksMovement = false := by
  unfold isOpen
  simp

theorem pruneTo_open_iff (m : Map) (R : List (Int × Int))
    (hR : ∀ p ∈ R, isOpen m p = true) (q : Int × Int) :
    isOpen (pruneTo m R) q = true ↔ q ∈ R := by
  constructor
  · intro hq
    rw [isOpen_iff] at hq
    obtain ⟨hb, hm⟩ := hq
    have hb' : inBoundsP m q.1 q.2 := hb
    by_contra hnR
    have : ((pruneTo m R).tiles q.1 q.2) = wallTile := by
      show (if inBoundsP m q.1 q.2 ∧ (q.1, q.2) ∉ R then wallTile
        else m.tiles q.1 q.2) = wallTile
      rw [if_pos ⟨hb', fun hc => hnR (by simpa using hc)⟩]
    rw [this] at hm
    simp [wallTile] at hm
  · intro hq
    have hop := hR q hq
    rw [isOpen_iff] at hop ⊢
    obtain ⟨hb, hm⟩ := hop
    refine ⟨hb, ?_⟩
    have : ((pruneTo m R).tiles q.1 q.2) = m.tiles q.1 q.2 := by
      show (if inBoundsP m q.1 q.2 ∧ (q.1, q.2) ∉ R then wallTile
        else m.tiles q.1 q.2) = m.tiles q.1 q.2
      rw [if_neg]
      intro hc
      exact hc.2 (by simpa using hq)
    rw [this]
    exact hm

theorem GenerateCavern_eq (w h : Int) (rng : Int → Int → Bool) (steps : Nat)
    (m' : Map) (sx sy : Int)
    (hgen : GenerateCavern w h rng steps = some (m', sx, sy)) :
    ∃ s : Int × Int, findOpenTile (smoothed w h rng steps) = some s ∧
      s.1 = sx ∧ s.2 = sy ∧
      m' = pruneTo (smoothed w h rng steps)
        (floodFill (smoothed w h rng steps) s) := by
  unfold GenerateCavern at hgen
  cases hf : findOpenTile (smoothed w h rng steps) with
  | none => rw [hf] at hgen; simp at hgen
  | some s =>
    rw [hf] at hgen
    simp only [Option.some.injEq, Prod.mk.injEq] at hgen
    exact ⟨s, rfl, hgen.2.1, hgen.2.2, hgen.1.symm⟩

/-- C1: every open (non-movement-blocking, in-bounds) tile of a map
produced by `GenerateCavern` is reachable from the returned spawn
coordinate by flood fill over the map's open tiles: no open tile lies
outside the single retained connected region (spec sections 4.2 step 3
and 8, connectivity). -/
theorem cavern_connectivity (w h : Int) (rng : Int → Int → Bool) (steps : Nat)
    (m' : Map) (sx sy : Int)
    (hgen : GenerateCavern w h rng steps = some (m', sx, sy)) :
    ∀ p : Int × Int, isOpen m' p = true → ReachIn (openIn m') (sx, sy) p := by
  obtain ⟨s, hf, hsx, hsy, hm⟩ := GenerateCavern_eq w h rng steps m' sx sy hgen
  subst hm
  intro p hp
  have hRopen : ∀ q ∈ floodFill (smoothed w h rng steps) s,
      isOpen (smoothed w h rng steps) q = true :=
    fun q hq => (floodFill_sound _ s q hq).1
  have hpR : p ∈ floodFill (smoothed w h rng steps) s :=
    (pruneTo_open_iff _ _ hRopen p).mp hp
  have hreach := (floodFill_sound _ s p hpR).2
  rw [← hsx, ← hsy]
  exact ReachIn_mono
    (fun z hz => (pruneTo_open_iff _ _ hRopen z).mpr hz.2) hreach

theorem cavern_connectivity_witness :
    GenerateCavern 5 5 rngAllFloor 0 = some (genWitnessMap, 1, 1) ∧
      ReachIn (openIn genWitnessMap) (1, 1) (2, 2) :=
  ⟨rfl, cavern_connectivity 5 5 rngAllFloor 0 genWitnessMap 1 1 rfl (2, 2)
    (by decide)⟩

/-- C6: the spawn coordinate returned by `GenerateCavern` always refers to
a tile whose `blocksMovement` flag is false (spec sections 4.2 step 4
and 8, spawn validity). -/
theorem spawn_tile_open (w h : Int) (rng : Int → Int → Bool) (steps : Nat)
    (m' : Map) (sx sy : Int)
    (hgen : GenerateCavern w h rng steps = some (m', sx, sy)) :
    (m'.tiles sx sy).blocksMovement = false := by
  obtain ⟨s, hf, hsx, hsy, hm⟩ := GenerateCavern_eq w h rng steps m' sx sy hgen
  subst hm
  unfold findOpenTile at hf
  have hopen : isOpen (smoothed w h rng steps) s = true := by
    simpa using List.find?_some hf
  have hRopen : ∀ q ∈ floodFill (smoothed w h rng steps) s,
      isOpen (smoothed w h rng steps) q = true :=
    fun q hq => (floodFill_sound _ s q hq).1
  have hsR := seed_mem_floodFill _ s hopen
  have hres := (pruneTo_open_iff _ _ hRopen s).mpr hsR
  rw [isOpen_iff] at hres
  rw [← hsx, ← hsy]
  exact hres.2

theorem spawn_tile_open_witness :
    ((genWitnessMap.tiles 1 1).blocksMovement = false) :=
  spawn_tile_open 5 5 rngAllFloor 0 genWitnessMap 1 1 rfl
